import Mathlib

/-!
Verification of the cookie-based authentication and flash-messaging core of
the `minimum-nextjs` repository.

The TypeScript sources embedded here:
* `src/constants.ts` — cookie names, error codes, the `||` separator;
* `src/types.ts` — `ALERT_VARIANTS`, `FlashMessage`, `AuthContext`, error taxonomy;
* `src/utilities/index.ts` — `extractJwt`, `makeFlashMesage`, `parseFlashString`,
  `isAlertVariant`, `setFlashCookie`, `getFlashCookie`;
* `src/lib/server/authentication.ts` — `makeJwt`, `verifyJwt`, `getAuthContext`,
  `withAuthHandler`.

External collaborators (the `cookies-next` cookie store and the `jsonwebtoken`
sign/verify primitive) are modelled explicitly: the cookie store as an
association list with `cookies-next`'s value post-processing, and the token
primitive as an injective serialization of signed-token records together with
a verifier that checks signature key, expiry, audience and issuer in the
order the library does.  JavaScript strings are modelled as `String`/`List Char`,
`string | null | undefined` as `Option String`, thrown exceptions as `Except`.
-/

set_option maxRecDepth 100000

/-! ### Constants (`src/constants.ts`) -/

/-- The name of the cookie storing the JWT authenticating the user. -/
def COOKIE_AUTH_USER : String := "min-nextjs_auth"

/-- The name of the flash cookie. -/
def COOKIE_FLASH : String := "min-nextjs_flash"

/-- Error code for unexpected errors relating to authentication. -/
def ERROR_1001 : String := "E1001"

/-- Error code for unauthenticated requests. -/
def ERROR_1002 : String := "E1002"

/-- Error code for expired sessions. -/
def ERROR_1003 : String := "E1003"

/-- The generic separator value (`SEP`). -/
def SEP : String := "||"

/-! ### `src/types.ts` -/

/-- The categories of alert (`ALERT_VARIANTS`).  In the TypeScript source the
element type of the array is `string`, so variants are modelled as `String`
with the membership predicate `isAlertVariant`. -/
def ALERT_VARIANTS : List String :=
  ["primary", "secondary", "success", "danger", "warning", "info", "light", "dark"]

/-- The type definition for flash messages (`FlashMessage`). -/
structure FlashMessage where
  message : String
  variant : String
deriving DecidableEq, Repr

/-- The authentication context attached to a HTTP request (`AuthContext`). -/
structure AuthContext where
  id : String
  name : String
deriving DecidableEq, Repr

/-! ### A model of JavaScript `String.prototype.split` with a one-character
separator, at the `List Char` level.  `splitBy p l` splits `l` at every
character satisfying `p`, keeping empty segments, exactly as
`"a  b".split(' ') = ["a","","b"]` and `"".split(' ') = [""]` in JavaScript. -/

/-- Worker for `splitBy`: returns the first segment and the remaining
segments, so that the result list is non-empty by construction. -/
def splitByNE (p : Char → Bool) : List Char → List Char × List (List Char)
  | [] => ([], [])
  | c :: rest =>
    let (s, ss) := splitByNE p rest
    if p c then ([], s :: ss) else (c :: s, ss)

/-- JavaScript `value.split(sep)` for a one-character separator class. -/
def splitBy (p : Char → Bool) (l : List Char) : List (List Char) :=
  (splitByNE p l).1 :: (splitByNE p l).2

/-! ### A model of JavaScript `value.split('||')` (the two-character `SEP`),
scanning left to right over non-overlapping occurrences. -/

/-- Worker for `splitPP`: first segment plus remaining segments of a split on
the two-character separator `"||"`. -/
def splitPPNE : List Char → List Char × List (List Char)
  | [] => ([], [])
  | [c] => ([c], [])
  | c :: d :: rest =>
    if c = '|' ∧ d = '|' then
      let (s, ss) := splitPPNE rest
      ([], s :: ss)
    else
      let (s, ss) := splitPPNE (d :: rest)
      (c :: s, ss)

/-- JavaScript `value.split('||')`. -/
def splitPP (l : List Char) : List (List Char) :=
  (splitPPNE l).1 :: (splitPPNE l).2

/-- Whether a character list contains `"||"` as a (contiguous) substring. -/
def hasPP : List Char → Bool
  | [] => false
  | [_] => false
  | c :: d :: rest => (c = '|' && d = '|') || hasPP (d :: rest)

/-! ### Flash-string encoding and decoding (`src/utilities/index.ts`) -/

/-- `isAlertVariant`: a type-guard checking membership in `ALERT_VARIANTS`. -/
def isAlertVariant (s : String) : Bool :=
  ALERT_VARIANTS.contains s

/-- `makeFlashMesage` (sic): joins the message and the variant with `SEP`. -/
def makeFlashMesage (message : String) (variant : String := "info") : String :=
  message ++ SEP ++ variant

/-- `parseFlashString`: splits the cookie value on `SEP`; the message is the
first segment (`parts[0] || ''`); the variant defaults to `'primary'` when
fewer than two segments exist or when the last segment is not a recognized
alert variant, and is the last segment otherwise. -/
def parseFlashString (value : String) : FlashMessage :=
  let parts := splitPP value.data
  let message : String := ⟨parts.headD []⟩
  if parts.length < 2 then
    { message := message, variant := "primary" }
  else
    let v : String := ⟨parts.getLastD []⟩
    if isAlertVariant v then
      { message := message, variant := v }
    else
      { message := message, variant := "primary" }

/-! ### The cookie carrier (`cookies-next` collaborator)

The carrier is the named-cookie store visible through one request/response
pair, modelled as an association list from cookie names to raw string values.
`cookies-next`'s `getCookie` post-processes the raw value: the literal
strings `"true"`/`"false"`/`"undefined"`/`"null"` are converted to non-string
values (so `typeof v !== 'string'` in the callers), every other value is
returned as the string itself. -/

/-- A cookie jar: names paired with raw stored values. -/
abbrev Cookies := List (String × String)

/-- Raw lookup of a named cookie. -/
def getCookieRaw (name : String) (c : Cookies) : Option String :=
  (List.find? (fun p => p.1 == name) c).map (·.2)

/-- The value type returned by `cookies-next`'s `getCookie`
(`CookieValueTypes`, restricted to the inhabited cases). -/
inductive CookieValue where
  | str (s : String)
  | nonStr
deriving DecidableEq, Repr

/-- `cookies-next`'s `processValue`: the four literal strings decode to
non-string JavaScript values, everything else stays a string. -/
def cookieProcess (s : String) : CookieValue :=
  if s = "true" ∨ s = "false" ∨ s = "undefined" ∨ s = "null" then
    CookieValue.nonStr
  else
    CookieValue.str s

/-- `getCookie(name, { req, res })`: raw lookup followed by `processValue`. -/
def getCookie (name : String) (c : Cookies) : Option CookieValue :=
  (getCookieRaw name c).map cookieProcess

/-- `deleteCookie(name, { req, res })`. -/
def deleteCookie (name : String) (c : Cookies) : Cookies :=
  List.filter (fun p => p.1 != name) c

/-- `setCookie(name, value, { req, res })`: overwrites any previous value. -/
def setCookie (name value : String) (c : Cookies) : Cookies :=
  deleteCookie name c ++ [(name, value)]

/-- The string case of a processed cookie value (`typeof v === 'string'`). -/
def cookieStr? : Option CookieValue → Option String
  | some (CookieValue.str s) => some s
  | _ => none

/-! ### The flash channel (`setFlashCookie` / `getFlashCookie`) -/

/-- `setFlashCookie`: stores `makeFlashMesage message variant` under
`COOKIE_FLASH` on the carrier. -/
def setFlashCookie (message : String) (variant : String := "info")
    (c : Cookies) : Cookies :=
  setCookie COOKIE_FLASH (makeFlashMesage message variant) c

/-- `getFlashCookie`: reads the flash cookie, unconditionally deletes it,
returns `null` when no string value was present and the parsed entry
otherwise.  The updated carrier is returned alongside the result. -/
def getFlashCookie (c : Cookies) : Option FlashMessage × Cookies :=
  let flash := getCookie COOKIE_FLASH c
  let c2 := deleteCookie COOKIE_FLASH c
  match cookieStr? flash with
  | none => (none, c2)
  | some s => (some (parseFlashString s), c2)

/-! ### `extractJwt` (`src/utilities/index.ts`)

`extractJwt` returns `null` when the header is absent, empty, or does not
pass the case-insensitive test `/^bearer /`; otherwise it trims the header,
splits it on the space character, and returns the second element unless that
element is missing or empty. -/

/-- JavaScript's `trim()`: drop whitespace from both ends. -/
def trimL (l : List Char) : List Char :=
  ((l.dropWhile Char.isWhitespace).reverse.dropWhile Char.isWhitespace).reverse

/-- The test `/^bearer /i.test(value)`: the first seven characters,
lower-cased, are exactly `"bearer "`. -/
def hasBearerPfx (l : List Char) : Bool :=
  (l.take 7).map Char.toLower == "bearer ".data

/-- `extractJwt(bearer)` from `src/utilities/index.ts`. -/
def extractJwt (bearer : Option String) : Option String :=
  match bearer with
  | none => none
  | some b =>
    if b.data = [] ∨ ¬ hasBearerPfx b.data then none
    else
      match splitBy (fun c => c == ' ') (trimL b.data) with
      | _ :: jwt :: _ => if jwt = [] then none else some (String.mk jwt)
      | _ => none

/-! ### The `jsonwebtoken` collaborator

A signed token is an opaque string carrying a payload together with the
signing key, the audience list, the issuer and the absolute expiry time.
The wire format (base64url in reality) is modelled by an injective
serialization into marker/unary characters: each payload character `c`
becomes `c.toNat` copies of `'I'` followed by `'E'`, strings end with `'S'`,
string lists end with `'Z'`, numbers are unary `'I'`s ended by `'N'`, and
one-character tags pick option/payload constructors.  The alphabet contains
no whitespace, so serialized tokens behave like real JWTs inside bearer
headers. -/

/-- A decoded JWT payload: `jsonwebtoken` can decode to a bare string or to
a claims object; `getAuthContext` reads `sub` and `name` from the latter. -/
inductive JwtPayloadV where
  | str (s : String)
  | obj (sub : Option String) (name : Option String)
deriving DecidableEq, Repr

/-- A signed credential token (contents of the opaque signed string). -/
structure SignedToken where
  payload : JwtPayloadV
  key : String
  audience : List String
  issuer : String
  exp : Nat
deriving DecidableEq, Repr

/-- Unary/marker serialization of a character list: `c ↦ 'I'^c.toNat ++ 'E'`. -/
def encChars : List Char → List Char
  | [] => []
  | c :: cs => List.replicate c.toNat 'I' ++ 'E' :: encChars cs

/-- Serialize a string: its characters followed by the terminator `'S'`. -/
def encStr (s : String) : List Char :=
  encChars s.data ++ ['S']

/-- Serialize a string list: the strings in order, then the terminator `'Z'`. -/
def encStrs : List String → List Char
  | [] => ['Z']
  | s :: rest => encStr s ++ encStrs rest

/-- Serialize a natural number in unary, terminated by `'N'`. -/
def encNat (n : Nat) : List Char :=
  List.replicate n 'I' ++ ['N']

/-- Serialize an optional string (`'O'` = none, `'P'` = some). -/
def encOptStr : Option String → List Char
  | none => ['O']
  | some s => 'P' :: encStr s

/-- Serialize a decoded payload (`'T'` = bare string, `'J'` = claims object). -/
def encPayload : JwtPayloadV → List Char
  | JwtPayloadV.str s => 'T' :: encStr s
  | JwtPayloadV.obj sub name => 'J' :: (encOptStr sub ++ encOptStr name)

/-- The opaque signed string for a token (the `jwt.sign` output). -/
def encodeToken (t : SignedToken) : String :=
  String.mk (encPayload t.payload ++ encStr t.key ++ encStrs t.audience ++
    encStr t.issuer ++ encNat t.exp)

/-- Deserialize one string: `n` counts pending `'I'`s, `acc` the characters
recovered so far; returns the string and the unconsumed remainder. -/
def decStrA : List Char → Nat → List Char → Option (String × List Char)
  | 'I' :: r, n, acc => decStrA r (n + 1) acc
  | 'E' :: r, n, acc => decStrA r 0 (acc ++ [Char.ofNat n])
  | 'S' :: r, n, acc => if n = 0 then some (String.mk acc, r) else none
  | _, _, _ => none

/-- Deserialize a unary number terminated by `'N'`. -/
def decNatA : List Char → Nat → Option (Nat × List Char)
  | 'I' :: r, n => decNatA r (n + 1)
  | 'N' :: r, n => some (n, r)
  | _, _ => none

/-- Deserialize a string list terminated by `'Z'`; `n` counts pending `'I'`s,
`cur` the current string's characters, `acc` the finished strings. -/
def decStrsA : List Char → Nat → List Char → List String →
    Option (List String × List Char)
  | 'I' :: r, n, cur, acc => decStrsA r (n + 1) cur acc
  | 'E' :: r, n, cur, acc => decStrsA r 0 (cur ++ [Char.ofNat n]) acc
  | 'S' :: r, n, cur, acc =>
    if n = 0 then decStrsA r 0 [] (acc ++ [String.mk cur]) else none
  | 'Z' :: r, n, cur, acc =>
    if n = 0 ∧ cur = [] then some (acc, r) else none
  | _, _, _, _ => none

/-- Deserialize an optional string. -/
def decOptStrA : List Char → Option (Option String × List Char)
  | 'O' :: r => some (none, r)
  | 'P' :: r => (decStrA r 0 []).map (fun p => (some p.1, p.2))
  | _ => none

/-- Deserialize a decoded payload. -/
def decPayloadA : List Char → Option (JwtPayloadV × List Char)
  | 'T' :: r => (decStrA r 0 []).map (fun p => (JwtPayloadV.str p.1, p.2))
  | 'J' :: r =>
    match decOptStrA r with
    | some (sub, r2) =>
      match decOptStrA r2 with
      | some (name, r3) => some (JwtPayloadV.obj sub name, r3)
      | none => none
    | none => none
  | _ => none

/-- Parse an opaque signed string back into a token (the parsing half of
`jwt.verify`); fails on anything that is not a complete serialized token. -/
def decodeToken (s : String) : Option SignedToken :=
  match decPayloadA s.data with
  | some (p, r1) =>
    match decStrA r1 0 [] with
    | some (key, r2) =>
      match decStrsA r2 0 [] [] with
      | some (aud, r3) =>
        match decStrA r3 0 [] with
        | some (iss, r4) =>
          match decNatA r4 0 with
          | some (e, r5) =>
            if r5 = [] then
              some { payload := p, key := key, audience := aud,
                     issuer := iss, exp := e }
            else none
          | none => none
        | none => none
      | none => none
    | none => none
  | none => none

/-! ### Authentication (`src/lib/server/authentication.ts`)

The module-level environment configuration (`JWT_AUDIENCE`, `JWT_HMAC_KEY`,
`JWT_ISSUER`, `JWT_TTL_ACCESS`, all validated fail-fast at startup) is
modelled as an explicit configuration record passed to each operation, and
the current time as an explicit `now : Nat` (seconds). -/

deriving instance DecidableEq for Except

/-- The process-wide JWT configuration. -/
structure JwtConfig where
  JWT_AUDIENCE : List String
  JWT_HMAC_KEY : String
  JWT_ISSUER : String
  JWT_TTL_ACCESS : Nat
deriving DecidableEq, Repr

/-- Verification failure reasons of `jwt.verify`: `TokenExpiredError` for a
passed expiry, every other `JsonWebTokenError` (bad format, bad signature,
audience mismatch, issuer mismatch) collapsed into `invalid`. -/
inductive VerifyErr where
  | expired
  | invalid
deriving DecidableEq, Repr

/-- `verifyJwt(jot)`: `jwt.verify` with the configured key, audience list and
issuer.  The library parses the token, checks the signature, then expiry,
then that the token's audience intersects the accepted audiences, then the
issuer; on success the decoded token is resolved (`complete: true`, the
callback's `decoded` argument, hence the `Option`). -/
def verifyJwt (cfg : JwtConfig) (now : Nat) (jot : String) :
    Except VerifyErr (Option SignedToken) :=
  match decodeToken jot with
  | none => Except.error VerifyErr.invalid
  | some t =>
    if t.key ≠ cfg.JWT_HMAC_KEY then Except.error VerifyErr.invalid
    else if t.exp ≤ now then Except.error VerifyErr.expired
    else if ¬ t.audience.any (fun a => cfg.JWT_AUDIENCE.contains a) then
      Except.error VerifyErr.invalid
    else if t.issuer ≠ cfg.JWT_ISSUER then Except.error VerifyErr.invalid
    else Except.ok (some t)

/-- The signed token built by `makeJwt(sub, name)`: payload `{name, sub}`,
signed with the configured key, audience and issuer, expiring `TTL` from
`now` (`expiresIn: JWT_TTL_ACCESS`). -/
def makeJwtToken (cfg : JwtConfig) (now : Nat) (sub name : String) :
    SignedToken :=
  { payload := JwtPayloadV.obj (some sub) (some name)
    key := cfg.JWT_HMAC_KEY
    audience := cfg.JWT_AUDIENCE
    issuer := cfg.JWT_ISSUER
    exp := now + cfg.JWT_TTL_ACCESS }

/-- `makeJwt(sub, name)`: the opaque signed string handed to the client. -/
def makeJwt (cfg : JwtConfig) (now : Nat) (sub name : String) : String :=
  encodeToken (makeJwtToken cfg now sub name)

/-- The failure taxonomy of auth-context resolution as observed by
`withAuthHandler`'s catch block: `UnauthenticatedError`,
`TokenExpiredError`, or any other thrown error. -/
inductive AuthErr where
  | unauthenticated (msg : String)
  | tokenExpired
  | internal (msg : String)
deriving DecidableEq, Repr

/-- The `mode` parameter of `getAuthContext`/`withAuthHandler`. -/
inductive Mode where
  | cookie
  | header
deriving DecidableEq, Repr

/-- An inbound API request: its parsed cookies and its `authorization`
header (`req.headers.authorization`, possibly absent). -/
structure ApiRequest where
  cookies : Cookies
  authorization : Option String

/-- The verification tail of `getAuthContext` (lines 129–155): verify the
credential string, rethrow `TokenExpiredError`, convert every other
verification failure to `UnauthenticatedError`, reject a missing decode
result or a bare-string payload, and build the `AuthContext` from
`payload.sub ?? ''` and `payload.name ?? ''`. -/
def authVerifyPhase (cfg : JwtConfig) (now : Nat) (jot : String) :
    Except AuthErr AuthContext :=
  match verifyJwt cfg now jot with
  | Except.error VerifyErr.expired => Except.error AuthErr.tokenExpired
  | Except.error VerifyErr.invalid =>
    Except.error (AuthErr.unauthenticated "JWT verification failed")
  | Except.ok none =>
    Except.error (AuthErr.unauthenticated "JWT decoding failed")
  | Except.ok (some t) =>
    match t.payload with
    | JwtPayloadV.str _ =>
      Except.error (AuthErr.unauthenticated "JWT decoding failed")
    | JwtPayloadV.obj sub name =>
      Except.ok { id := sub.getD "", name := name.getD "" }

/-- `getAuthContext(req, res, mode)`: when `mode` is unset or `'cookie'` the
auth cookie is probed and accepted if it is a non-empty string; when no
usable credential was found and `mode` is unset or `'header'` the bearer
header is probed via `extractJwt` (overwriting `jot`); if no string
credential was obtained, fail `UnauthenticatedError('JWT not found')`;
otherwise run the verification tail. -/
def getAuthContext (cfg : JwtConfig) (now : Nat) (req : ApiRequest)
    (mode : Option Mode) : Except AuthErr AuthContext :=
  let jot0 : Option CookieValue :=
    if mode = none ∨ mode = some Mode.cookie then
      getCookie COOKIE_AUTH_USER req.cookies
    else none
  let auth0 : Bool :=
    match jot0 with
    | some (CookieValue.str s) => s != ""
    | _ => false
  let step : Option CookieValue × Bool :=
    if auth0 = false ∧ (mode = none ∨ mode = some Mode.header) then
      match extractJwt req.authorization with
      | some j => (some (CookieValue.str j), true)
      | none => (none, false)
    else (jot0, auth0)
  match step with
  | (some (CookieValue.str j), true) => authVerifyPhase cfg now j
  | _ => Except.error (AuthErr.unauthenticated "JWT not found")

/-- The ordered channel probe implicit in `getAuthContext`: the cookie first
(when allowed by `mode`), accepted only as a non-empty string; then the
bearer header (when allowed by `mode`); `none` when neither yields a
credential. -/
def selectCred (req : ApiRequest) (mode : Option Mode) : Option String :=
  let fromCookie : Option String :=
    if mode = none ∨ mode = some Mode.cookie then
      match getCookie COOKIE_AUTH_USER req.cookies with
      | some (CookieValue.str s) => if s != "" then some s else none
      | _ => none
    else none
  match fromCookie with
  | some s => some s
  | none =>
    if mode = none ∨ mode = some Mode.header then
      extractJwt req.authorization
    else none

/-- The observable outcome of `withAuthHandler`'s returned function: either
the wrapped handler is dispatched, or a JSON rejection
`{status, code}` is sent. -/
inductive WithAuthResult where
  | runHandler
  | reject (status : Nat) (code : String)
deriving DecidableEq, Repr

/-- The catch block of `withAuthHandler`: `TokenExpiredError` → 403 with
`ERROR_1003`; `UnauthenticatedError` → 401 with `ERROR_1002`; any other
error → 500 with `ERROR_1001`. -/
def rejectOf : AuthErr → WithAuthResult
  | AuthErr.tokenExpired => WithAuthResult.reject 403 ERROR_1003
  | AuthErr.unauthenticated _ => WithAuthResult.reject 401 ERROR_1002
  | AuthErr.internal _ => WithAuthResult.reject 500 ERROR_1001

/-- `withAuthHandler(handler, mode)` applied to a request: run
`getAuthContext`; on success dispatch the wrapped handler, on failure send
the rejection for the caught error. -/
def withAuthHandler (cfg : JwtConfig) (now : Nat) (mode : Option Mode)
    (req : ApiRequest) : WithAuthResult :=
  match getAuthContext cfg now req mode with
  | Except.ok _ => WithAuthResult.runHandler
  | Except.error e => rejectOf e

/-! ### Lemmas: the `"||"` split -/

/-- A string with no `"||"` substring splits into a single segment. -/
theorem splitPPNE_noPP : ∀ m : List Char, hasPP m = false → splitPPNE m = (m, []) := by
  intro m
  induction m with
  | nil => intro _; rfl
  | cons c tail ih =>
    cases tail with
    | nil => intro _; rfl
    | cons d m' =>
      intro h
      simp only [hasPP, Bool.or_eq_false_iff, Bool.and_eq_false_iff,
        decide_eq_false_iff_not] at h
      have h2 := ih h.2
      simp only [splitPPNE, h2]
      have : ¬ (c = '|' ∧ d = '|') := by
        rcases h.1 with h1 | h1 <;> simp_all
      simp [this]

/-- Splitting a well-ended prefix followed by `"||"`: the prefix becomes the
first segment and splitting continues after the separator. -/
theorem splitPPNE_sep :
    ∀ m rest : List Char, hasPP m = false → m.getLast? ≠ some '|' →
      splitPPNE (m ++ '|' :: '|' :: rest) =
        (m, (splitPPNE rest).1 :: (splitPPNE rest).2) := by
  intro m
  induction m with
  | nil => intro rest _ _; rfl
  | cons c tail ih =>
    cases tail with
    | nil =>
      intro rest _ hlast
      have hc : c ≠ '|' := by simpa using hlast
      simp [splitPPNE, hc]
    | cons d m' =>
      intro rest h hlast
      simp only [hasPP, Bool.or_eq_false_iff, Bool.and_eq_false_iff,
        decide_eq_false_iff_not] at h
      have hlast' : (d :: m').getLast? ≠ some '|' := by
        rwa [List.getLast?_cons_cons] at hlast
      have h2 := ih rest h.2 hlast'
      have hcd : ¬ (c = '|' ∧ d = '|') := by
        rcases h.1 with h1 | h1 <;> simp_all
      simp only [List.cons_append] at h2 ⊢
      simp [splitPPNE, hcd, h2]

/-- `splitPP` on `message ++ "||" ++ variant` with a clean message and a
pipe-free variant yields exactly the two pieces. -/
theorem splitPP_make (m v : String) (hm : hasPP m.data = false)
    (hlast : m.data.getLast? ≠ some '|') (hv : hasPP v.data = false) :
    splitPP ((m ++ SEP ++ v).data) = [m.data, v.data] := by
  have hdata : (m ++ SEP ++ v).data = m.data ++ '|' :: '|' :: v.data := by
    simp [String.data_append, SEP]
  rw [splitPP, hdata, splitPPNE_sep m.data v.data hm hlast, splitPPNE_noPP v.data hv]

/-- Recognized alert variants are non-empty and contain no pipes. -/
theorem variant_clean (v : String) (h : isAlertVariant v = true) :
    hasPP v.data = false ∧ v ≠ "" := by
  have : v ∈ ALERT_VARIANTS := List.elem_iff.mp h
  fin_cases this <;> exact ⟨by decide, by decide⟩

/-- Decoding an encoded flash message recovers it exactly when the message
has no `"||"` substring and does not end in `'|'`. -/
theorem parse_make (m v : String) (hv : isAlertVariant v = true)
    (hm : hasPP m.data = false) (hlast : m.data.getLast? ≠ some '|') :
    parseFlashString (makeFlashMesage m v) = { message := m, variant := v } := by
  have hclean := variant_clean v hv
  have hsplit := splitPP_make m v hm hlast hclean.1
  simp only [parseFlashString, makeFlashMesage] at *
  rw [hsplit]
  simp [hv]

/-- The first segment of a split only depends on the part of the list up to
the first `"||"` occurrence. -/
theorem splitPPNE_append_fst :
    ∀ m r : List Char, hasPP m = true → (splitPPNE (m ++ r)).1 = (splitPPNE m).1 := by
  intro m
  induction m with
  | nil => intro r h; simp [hasPP] at h
  | cons c tail ih =>
    cases tail with
    | nil => intro r h; simp [hasPP] at h
    | cons d m' =>
      intro r h
      by_cases hcd : c = '|' ∧ d = '|'
      · obtain ⟨hc, hd⟩ := hcd
        subst hc; subst hd
        simp [splitPPNE]
      · have h' : hasPP (d :: m') = true := by
          simp only [hasPP, Bool.or_eq_true, Bool.and_eq_true, decide_eq_true_eq] at h
          tauto
        have ihr := ih r h'
        simp only [List.cons_append] at ihr ⊢
        simp [splitPPNE, hcd, ihr]

/-- When the list contains `"||"`, the first segment of its split is
strictly shorter than the list. -/
theorem splitPPNE_fst_lt :
    ∀ m : List Char, hasPP m = true → ((splitPPNE m).1).length < m.length := by
  intro m
  induction m with
  | nil => intro h; simp [hasPP] at h
  | cons c tail ih =>
    cases tail with
    | nil => intro h; simp [hasPP] at h
    | cons d m' =>
      intro h
      by_cases hcd : c = '|' ∧ d = '|'
      · obtain ⟨hc, hd⟩ := hcd
        subst hc; subst hd
        simp [splitPPNE]
      · have h' : hasPP (d :: m') = true := by
          simp only [hasPP, Bool.or_eq_true, Bool.and_eq_true, decide_eq_true_eq] at h
          tauto
        have := ih h'
        simp only [splitPPNE, hcd, if_false]
        simp only [List.length_cons]
        simpa using this

/-- The message produced by `parseFlashString` is always the first
`"||"`-separated segment of the input. -/
theorem parse_message (value : String) :
    (parseFlashString value).message = String.mk ((splitPP value.data).headD []) := by
  unfold parseFlashString
  dsimp only
  split_ifs <;> rfl

/-! ### Lemmas: the cookie carrier -/

/-- Deleting a named cookie removes it from the carrier. -/
theorem getCookieRaw_del (n : String) (c : Cookies) :
    getCookieRaw n (deleteCookie n c) = none := by
  induction c with
  | nil => rfl
  | cons p rest ih =>
    unfold deleteCookie at ih ⊢
    rw [List.filter_cons]
    by_cases hp : p.1 = n
    · simpa [hp] using ih
    · have hne : (p.1 != n) = true := by simpa using hp
      rw [hne, if_pos rfl]
      unfold getCookieRaw at ih ⊢
      rw [List.find?_cons_of_neg _ (by simpa using hp)]
      exact ih

/-- Setting a named cookie makes its raw value readable. -/
theorem getCookieRaw_set (n v : String) (c : Cookies) :
    getCookieRaw n (setCookie n v c) = some v := by
  have hdel := getCookieRaw_del n c
  unfold getCookieRaw at hdel ⊢
  unfold setCookie
  rw [List.find?_append]
  have : List.find? (fun p => p.1 == n) (deleteCookie n c) = none := by
    cases hf : List.find? (fun p => p.1 == n) (deleteCookie n c) with
    | none => rfl
    | some q => rw [hf] at hdel; simp at hdel
  rw [this]
  simp [List.find?]

/-- A flash-cookie value always contains a pipe, so `cookies-next`'s value
post-processing leaves it a string. -/
theorem cookieProcess_flash (m v : String) :
    cookieProcess (makeFlashMesage m v) = CookieValue.str (makeFlashMesage m v) := by
  have hd : (makeFlashMesage m v).data = m.data ++ (SEP.data ++ v.data) := by
    simp [makeFlashMesage, String.data_append]
  have hsep : '|' ∈ SEP.data := by decide
  have hmem : '|' ∈ (makeFlashMesage m v).data := by
    rw [hd]
    exact List.mem_append.mpr (Or.inr (List.mem_append.mpr (Or.inl hsep)))
  unfold cookieProcess
  split_ifs with h
  · exfalso
    rcases h with h | h | h | h <;> (rw [h] at hmem; revert hmem; decide)
  · rfl

/-! ### Claims C6–C10: the flash channel -/

/-- Claim C6 (amended): for every carrier, every recognized variant and every
message that neither contains the delimiter `"||"` nor ends in `'|'`,
writing the flash cookie and then reading it back returns
`{message, variant}`, and a second immediate read returns `null`. -/
theorem claim_C6 (c : Cookies) (m v : String) (hv : isAlertVariant v = true)
    (hm : hasPP m.data = false) (hlast : m.data.getLast? ≠ some '|') :
    (getFlashCookie (setFlashCookie m v c)).1 =
      some { message := m, variant := v } ∧
    (getFlashCookie ((getFlashCookie (setFlashCookie m v c)).2)).1 = none := by
  have hraw : getCookieRaw COOKIE_FLASH (setFlashCookie m v c) =
      some (makeFlashMesage m v) :=
    getCookieRaw_set COOKIE_FLASH (makeFlashMesage m v) c
  have hparse := parse_make m v hv hm hlast
  constructor
  · simp [getFlashCookie, getCookie, hraw, cookieProcess_flash, cookieStr?, hparse]
  · have hsnd : (getFlashCookie (setFlashCookie m v c)).2 =
        deleteCookie COOKIE_FLASH (setFlashCookie m v c) := by
      unfold getFlashCookie
      dsimp only
      split <;> rfl
    rw [hsnd]
    have hdel := getCookieRaw_del COOKIE_FLASH (setFlashCookie m v c)
    simp [getFlashCookie, getCookie, hdel, cookieStr?]

/-- Claim C6 as frozen is false: for the delimiter-bearing message
`"a||b"` the read-back entry drops everything after the first `"||"`. -/
theorem claim_C6_counterexample :
    isAlertVariant "success" = true ∧
    (getFlashCookie (setFlashCookie "a||b" "success" [])).1 ≠
      some { message := "a||b", variant := "success" } := by
  constructor
  · decide
  · decide

/-- Witness instantiating `claim_C6` at a concrete carrier and entry. -/
theorem claim_C6_witness :
    (getFlashCookie (setFlashCookie "Saved!" "success" [])).1 =
      some { message := "Saved!", variant := "success" } ∧
    (getFlashCookie ((getFlashCookie (setFlashCookie "Saved!" "success" [])).2)).1 =
      none :=
  claim_C6 [] "Saved!" "success" (by decide) (by decide) (by decide)

/-- Claim C7 (amended): decode-after-encode recovers the entry for every
recognized variant and every message that neither contains `"||"` nor ends
in `'|'`. -/
theorem claim_C7 (m v : String) (hv : isAlertVariant v = true)
    (hm : hasPP m.data = false) (hlast : m.data.getLast? ≠ some '|') :
    parseFlashString (makeFlashMesage m v) = { message := m, variant := v } :=
  parse_make m v hv hm hlast

/-- Claim C7 as frozen is false: `"a|"` contains no `"||"`, yet appending
`"||success"` creates an earlier separator occurrence (`"a|||success"`), so
decoding returns `{message := "a", variant := "primary"}`. -/
theorem claim_C7_counterexample :
    hasPP "a|".data = false ∧ isAlertVariant "success" = true ∧
    parseFlashString (makeFlashMesage "a|" "success") ≠
      { message := "a|", variant := "success" } := by
  refine ⟨by decide, by decide, by decide⟩

/-- Witness instantiating `claim_C7` at a concrete entry. -/
theorem claim_C7_witness :
    parseFlashString (makeFlashMesage "ok" "danger") =
      { message := "ok", variant := "danger" } :=
  claim_C7 "ok" "danger" (by decide) (by decide) (by decide)

/-- Claim C8: `parseFlashString` is total; the message is the first
`"||"`-separated segment; with fewer than two segments the variant falls
back to `"primary"`; otherwise the last segment is used exactly when it is
one of the 8 recognized variants and `"primary"` otherwise; the produced
variant is always recognized. -/
theorem claim_C8 (value : String) :
    (parseFlashString value).message = String.mk ((splitPP value.data).headD []) ∧
    ((splitPP value.data).length < 2 →
      (parseFlashString value).variant = "primary") ∧
    (2 ≤ (splitPP value.data).length →
      (parseFlashString value).variant =
        (if isAlertVariant (String.mk ((splitPP value.data).getLastD [])) then
          String.mk ((splitPP value.data).getLastD [])
        else "primary")) ∧
    isAlertVariant (parseFlashString value).variant = true ∧
    ALERT_VARIANTS.length = 8 := by
  refine ⟨parse_message value, ?_, ?_, ?_, by decide⟩
  · intro h
    unfold parseFlashString
    dsimp only
    rw [if_pos h]
  · intro h
    unfold parseFlashString
    dsimp only
    rw [if_neg (by omega)]
    split_ifs <;> rfl
  · unfold parseFlashString
    dsimp only
    split_ifs with h1 h2
    · exact (by decide : isAlertVariant "primary" = true)
    · exact h2
    · exact (by decide : isAlertVariant "primary" = true)

/-- Witness instantiating `claim_C8` at concrete inputs: a delimiter-free
value falls back to `"primary"`, a recognized trailing segment is kept. -/
theorem claim_C8_witness :
    (parseFlashString "onlymessage").variant = "primary" ∧
    (parseFlashString "x||dark").variant = "dark" := by
  constructor
  · exact (claim_C8 "onlymessage").2.1 (by decide)
  · exact ((claim_C8 "x||dark").2.2.1 (by decide)).trans (by decide)

/-- Claim C9: `getFlashCookie` always deletes the flash cookie from the
carrier, and returns `null` exactly when no string value was present. -/
theorem claim_C9 (c : Cookies) :
    (getFlashCookie c).2 = deleteCookie COOKIE_FLASH c ∧
    ((getFlashCookie c).1 = none ↔
      cookieStr? (getCookie COOKIE_FLASH c) = none) := by
  unfold getFlashCookie
  dsimp only
  cases h : cookieStr? (getCookie COOKIE_FLASH c) <;> simp [h]

/-- Claim C10: for delimiter-bearing messages the flash encoding is lossy:
only the part of the message before its first `"||"` survives an
encode/decode cycle, so the original message is never recovered. -/
theorem claim_C10 (m v : String) (_hv : isAlertVariant v = true)
    (hm : hasPP m.data = true) :
    (parseFlashString (makeFlashMesage m v)).message =
      String.mk ((splitPP m.data).headD []) ∧
    (parseFlashString (makeFlashMesage m v)).message ≠ m := by
  have hd : (makeFlashMesage m v).data = m.data ++ ('|' :: '|' :: v.data) := by
    simp [makeFlashMesage, String.data_append, SEP]
  have hmsg := parse_message (makeFlashMesage m v)
  have hfst : (splitPPNE ((makeFlashMesage m v).data)).1 = (splitPPNE m.data).1 := by
    rw [hd]
    exact splitPPNE_append_fst m.data _ hm
  have hhead : (splitPP ((makeFlashMesage m v).data)).headD [] =
      (splitPPNE m.data).1 := by
    rw [splitPP, List.headD_cons, hfst]
  constructor
  · rw [hmsg, hhead]
    rfl
  · rw [hmsg, hhead]
    intro heq
    have hdata : (splitPPNE m.data).1 = m.data := congrArg String.data heq
    have hlt := splitPPNE_fst_lt m.data hm
    rw [hdata] at hlt
    exact absurd hlt (lt_irrefl _)

/-- Witness instantiating `claim_C10` at a delimiter-bearing message. -/
theorem claim_C10_witness :
    (parseFlashString (makeFlashMesage "x||y" "success")).message = "x" ∧
    (parseFlashString (makeFlashMesage "x||y" "success")).message ≠ "x||y" := by
  have h := claim_C10 "x||y" "success" (by decide) (by decide)
  exact ⟨h.1.trans (by decide), h.2⟩

/-! ### Lemmas: the token serialization -/

theorem decStrA_replicate (k : Nat) :
    ∀ (l : List Char) (n : Nat) (acc : List Char),
      decStrA (List.replicate k 'I' ++ l) n acc = decStrA l (n + k) acc := by
  induction k with
  | zero => intro l n acc; simp
  | succ k ih =>
    intro l n acc
    rw [List.replicate_succ, List.cons_append]
    show decStrA (List.replicate k 'I' ++ l) (n + 1) acc = _
    rw [ih]
    congr 1
    omega

theorem decStrA_encChars :
    ∀ (cs l acc : List Char),
      decStrA (encChars cs ++ l) 0 acc = decStrA l 0 (acc ++ cs) := by
  intro cs
  induction cs with
  | nil => intro l acc; simp [encChars]
  | cons c cs ih =>
    intro l acc
    rw [encChars, List.append_assoc, List.cons_append, decStrA_replicate]
    show decStrA (encChars cs ++ l) 0 (acc ++ [Char.ofNat (0 + c.toNat)]) = _
    rw [ih]
    congr 1
    simp [Char.ofNat_toNat]

theorem decStrA_encStr (s : String) (l : List Char) :
    decStrA (encStr s ++ l) 0 [] = some (s, l) := by
  rw [encStr, List.append_assoc, decStrA_encChars]
  rfl

theorem decNatA_replicate (k : Nat) :
    ∀ (l : List Char) (n : Nat),
      decNatA (List.replicate k 'I' ++ l) n = decNatA l (n + k) := by
  induction k with
  | zero => intro l n; simp
  | succ k ih =>
    intro l n
    rw [List.replicate_succ, List.cons_append]
    show decNatA (List.replicate k 'I' ++ l) (n + 1) = _
    rw [ih]
    congr 1
    omega

theorem decNatA_encNat (n : Nat) (l : List Char) :
    decNatA (encNat n ++ l) 0 = some (n, l) := by
  rw [encNat, List.append_assoc, decNatA_replicate]
  show some (0 + n, l) = some (n, l)
  rw [Nat.zero_add]

theorem decStrsA_replicate (k : Nat) :
    ∀ (l : List Char) (n : Nat) (cur : List Char) (acc : List String),
      decStrsA (List.replicate k 'I' ++ l) n cur acc = decStrsA l (n + k) cur acc := by
  induction k with
  | zero => intro l n cur acc; simp
  | succ k ih =>
    intro l n cur acc
    rw [List.replicate_succ, List.cons_append]
    show decStrsA (List.replicate k 'I' ++ l) (n + 1) cur acc = _
    rw [ih]
    congr 1
    omega

theorem decStrsA_encChars :
    ∀ (cs l cur : List Char) (acc : List String),
      decStrsA (encChars cs ++ l) 0 cur acc = decStrsA l 0 (cur ++ cs) acc := by
  intro cs
  induction cs with
  | nil => intro l cur acc; simp [encChars]
  | cons c cs ih =>
    intro l cur acc
    rw [encChars, List.append_assoc, List.cons_append, decStrsA_replicate]
    show decStrsA (encChars cs ++ l) 0 (cur ++ [Char.ofNat (0 + c.toNat)]) acc = _
    rw [ih]
    congr 1
    simp [Char.ofNat_toNat]

theorem decStrsA_encStrs :
    ∀ (xs : List String) (l : List Char) (acc : List String),
      decStrsA (encStrs xs ++ l) 0 [] acc = some (acc ++ xs, l) := by
  intro xs
  induction xs with
  | nil => intro l acc; simp [encStrs, decStrsA]
  | cons s xs ih =>
    intro l acc
    rw [encStrs, encStr, List.append_assoc, List.append_assoc, decStrsA_encChars]
    show decStrsA (encStrs xs ++ l) 0 [] (acc ++ [String.mk s.data]) = _
    rw [ih]
    simp

theorem decOptStrA_enc (o : Option String) (l : List Char) :
    decOptStrA (encOptStr o ++ l) = some (o, l) := by
  cases o with
  | none => rfl
  | some s =>
    rw [encOptStr, List.cons_append]
    show (decStrA (encStr s ++ l) 0 []).map (fun p => (some p.1, p.2)) = _
    rw [decStrA_encStr]
    rfl

theorem decPayloadA_enc (p : JwtPayloadV) (l : List Char) :
    decPayloadA (encPayload p ++ l) = some (p, l) := by
  cases p with
  | str s =>
    rw [encPayload, List.cons_append]
    show (decStrA (encStr s ++ l) 0 []).map
      (fun q => (JwtPayloadV.str q.1, q.2)) = _
    rw [decStrA_encStr]
    rfl
  | obj sub name =>
    rw [encPayload, List.cons_append, List.append_assoc]
    show (match decOptStrA (encOptStr sub ++ (encOptStr name ++ l)) with
      | some (s2, r2) =>
        match decOptStrA r2 with
        | some (n2, r3) => some (JwtPayloadV.obj s2 n2, r3)
        | none => none
      | none => none) = some (JwtPayloadV.obj sub name, l)
    rw [decOptStrA_enc]
    show (match decOptStrA (encOptStr name ++ l) with
      | some (n2, r3) => some (JwtPayloadV.obj sub n2, r3)
      | none => none) = some (JwtPayloadV.obj sub name, l)
    rw [decOptStrA_enc]

/-- The opaque-token serialization round-trips: parsing an encoded token
recovers the token. -/
theorem decode_encode (t : SignedToken) : decodeToken (encodeToken t) = some t := by
  obtain ⟨p, key, aud, iss, e⟩ := t
  have h5 : decNatA (encNat e) 0 = some (e, []) := by
    simpa using decNatA_encNat e []
  have hdata : (encodeToken ⟨p, key, aud, iss, e⟩).data =
      encPayload p ++ (encStr key ++ (encStrs aud ++ (encStr iss ++ encNat e))) := by
    simp [encodeToken, List.append_assoc]
  unfold decodeToken
  rw [hdata, decPayloadA_enc]
  dsimp only
  rw [decStrA_encStr]
  dsimp only
  rw [decStrsA_encStrs]
  dsimp only
  rw [decStrA_encStr]
  dsimp only
  rw [h5]
  simp

/-! ### Lemmas: the token alphabet contains no whitespace -/

/-- The characters a serialized token can contain. -/
def tokAlphabet : List Char := ['I', 'E', 'S', 'N', 'Z', 'O', 'P', 'T', 'J']

theorem mem_encChars {c : Char} :
    ∀ cs : List Char, c ∈ encChars cs → c ∈ tokAlphabet := by
  intro cs
  induction cs with
  | nil => intro h; simp [encChars] at h
  | cons d cs ih =>
    intro h
    rw [encChars] at h
    rcases List.mem_append.mp h with h | h
    · rw [List.eq_of_mem_replicate h]; decide
    · rcases List.mem_cons.mp h with h | h
      · rw [h]; decide
      · exact ih h

theorem mem_encStr {c : Char} {s : String} (h : c ∈ encStr s) : c ∈ tokAlphabet := by
  rw [encStr] at h
  rcases List.mem_append.mp h with h | h
  · exact mem_encChars s.data h
  · rcases List.mem_cons.mp h with h | h
    · rw [h]; decide
    · simp at h

theorem mem_encStrs {c : Char} :
    ∀ xs : List String, c ∈ encStrs xs → c ∈ tokAlphabet := by
  intro xs
  induction xs with
  | nil =>
    intro h
    rcases List.mem_cons.mp h with h | h
    · rw [h]; decide
    · simp at h
  | cons s xs ih =>
    intro h
    rw [encStrs] at h
    rcases List.mem_append.mp h with h | h
    · exact mem_encStr h
    · exact ih h

theorem mem_encNat {c : Char} {n : Nat} (h : c ∈ encNat n) : c ∈ tokAlphabet := by
  rw [encNat] at h
  rcases List.mem_append.mp h with h | h
  · rw [List.eq_of_mem_replicate h]; decide
  · rcases List.mem_cons.mp h with h | h
    · rw [h]; decide
    · simp at h

theorem mem_encOptStr {c : Char} {o : Option String} (h : c ∈ encOptStr o) :
    c ∈ tokAlphabet := by
  cases o with
  | none =>
    rcases List.mem_cons.mp h with h | h
    · rw [h]; decide
    · simp at h
  | some s =>
    rcases List.mem_cons.mp h with h | h
    · rw [h]; decide
    · exact mem_encStr h

theorem mem_encPayload {c : Char} {p : JwtPayloadV} (h : c ∈ encPayload p) :
    c ∈ tokAlphabet := by
  cases p with
  | str s =>
    rcases List.mem_cons.mp h with h | h
    · rw [h]; decide
    · exact mem_encStr h
  | obj sub name =>
    rcases List.mem_cons.mp h with h | h
    · rw [h]; decide
    · rcases List.mem_append.mp h with h | h
      · exact mem_encOptStr h
      · exact mem_encOptStr h

theorem mem_encodeToken {c : Char} {t : SignedToken}
    (h : c ∈ (encodeToken t).data) : c ∈ tokAlphabet := by
  have hd : (encodeToken t).data = encPayload t.payload ++ encStr t.key ++
      encStrs t.audience ++ encStr t.issuer ++ encNat t.exp := rfl
  rw [hd] at h
  rcases List.mem_append.mp h with h | h
  · rcases List.mem_append.mp h with h | h
    · rcases List.mem_append.mp h with h | h
      · rcases List.mem_append.mp h with h | h
        · exact mem_encPayload h
        · exact mem_encStr h
      · exact mem_encStrs t.audience h
    · exact mem_encStr h
  · exact mem_encNat h

/-- No character of a serialized token is whitespace. -/
theorem encodeToken_no_ws {t : SignedToken} :
    ∀ c ∈ (encodeToken t).data, c.isWhitespace = false := by
  intro c hc
  have h := mem_encodeToken hc
  fin_cases h <;> decide

/-! ### Lemmas: serialized-token shape and the bearer header -/

/-- A serialized token is a cons whose head character is `'T'` or `'J'`. -/
theorem encodeToken_data_eq (t : SignedToken) :
    ∃ (c : Char) (r : List Char),
      (encodeToken t).data = c :: r ∧ (c = 'T' ∨ c = 'J') := by
  have hd : (encodeToken t).data = encPayload t.payload ++ (encStr t.key ++
      encStrs t.audience ++ encStr t.issuer ++ encNat t.exp) := by
    show encPayload t.payload ++ encStr t.key ++ encStrs t.audience ++
      encStr t.issuer ++ encNat t.exp = _
    simp [List.append_assoc]
  cases hp : t.payload with
  | str s =>
    refine ⟨'T', encStr s ++ (encStr t.key ++ encStrs t.audience ++
      encStr t.issuer ++ encNat t.exp), ?_, Or.inl rfl⟩
    rw [hd, hp, encPayload, List.cons_append]
  | obj sub name =>
    refine ⟨'J', (encOptStr sub ++ encOptStr name) ++ (encStr t.key ++
      encStrs t.audience ++ encStr t.issuer ++ encNat t.exp), ?_, Or.inr rfl⟩
    rw [hd, hp, encPayload, List.cons_append]

/-- A serialized token is a non-empty string. -/
theorem encodeToken_ne_empty (t : SignedToken) : encodeToken t ≠ "" := by
  obtain ⟨c, r, hdata, _⟩ := encodeToken_data_eq t
  intro h
  rw [h] at hdata
  exact absurd hdata (by simp [String.data])

/-- A serialized token ends in the character `'N'`. -/
theorem encodeToken_data_concat (t : SignedToken) :
    ∃ l : List Char, (encodeToken t).data = l ++ ['N'] := by
  refine ⟨encPayload t.payload ++ encStr t.key ++ encStrs t.audience ++
    encStr t.issuer ++ List.replicate t.exp 'I', ?_⟩
  show encPayload t.payload ++ encStr t.key ++ encStrs t.audience ++
    encStr t.issuer ++ encNat t.exp = _
  rw [encNat]
  simp [List.append_assoc]

/-- `cookies-next` value post-processing leaves serialized tokens alone:
they start with an upper-case tag, the four special literals do not. -/
theorem cookieProcess_token (t : SignedToken) :
    cookieProcess (encodeToken t) = CookieValue.str (encodeToken t) := by
  obtain ⟨c, r, hdata, hc⟩ := encodeToken_data_eq t
  unfold cookieProcess
  split_ifs with h
  · exfalso
    rcases hc with hc | hc <;> subst hc <;>
      rcases h with h | h | h | h <;> rw [h] at hdata <;>
      (have h2 := congrArg List.head? hdata
       simp at h2)
  · rfl

/-- Dropping while a predicate that fails at the head changes nothing. -/
theorem dropWhile_cons_neg {p : Char → Bool} (a : Char) (l : List Char)
    (h : p a = false) : (a :: l).dropWhile p = a :: l :=
  List.dropWhile_cons_of_neg (by simp [h])

/-- `trim` is the identity on a string whose first and last characters are
not whitespace. -/
theorem trimL_eq_of_ends (c x : Char) (mid : List Char)
    (hc : c.isWhitespace = false) (hx : x.isWhitespace = false) :
    trimL (c :: (mid ++ [x])) = c :: (mid ++ [x]) := by
  unfold trimL
  rw [dropWhile_cons_neg c (mid ++ [x]) hc]
  have hrev : (c :: (mid ++ [x])).reverse = x :: (mid.reverse ++ [c]) := by
    simp
  rw [hrev, dropWhile_cons_neg x (mid.reverse ++ [c]) hx, ← hrev,
    List.reverse_reverse]

/-- Splitting a list none of whose characters match yields one segment. -/
theorem splitByNE_all_neg (p : Char → Bool) :
    ∀ l : List Char, (∀ c ∈ l, p c = false) → splitByNE p l = (l, []) := by
  intro l
  induction l with
  | nil => intro _; rfl
  | cons a r ih =>
    intro h
    have ha : p a = false := h a (List.mem_cons_self a r)
    have hr := ih (fun c hc => h c (List.mem_cons_of_mem a hc))
    simp [splitByNE, hr, ha]

/-- `extractJwt` recovers a non-empty whitespace-free credential from a
well-formed bearer header. -/
theorem extractJwt_bearer (s : String) (hne : s.data ≠ [])
    (hws : ∀ c ∈ s.data, c.isWhitespace = false) :
    extractJwt (some ("Bearer " ++ s)) = some s := by
  have hdata : ("Bearer " ++ s).data =
      'B' :: 'e' :: 'a' :: 'r' :: 'e' :: 'r' :: ' ' :: s.data := by
    rw [String.data_append]
    rfl
  have hnonnil : ("Bearer " ++ s).data ≠ [] := by
    rw [hdata]
    exact List.cons_ne_nil _ _
  have hpfx : hasBearerPfx (("Bearer " ++ s).data) = true := by
    unfold hasBearerPfx
    rw [hdata]
    show ((("Bearer ".data) ++ s.data).take ("Bearer ".data).length).map
      Char.toLower == "bearer ".data
    rw [List.take_left]
    decide
  obtain ⟨mid, x, hs⟩ : ∃ mid xx, s.data = mid ++ [xx] := by
    rcases List.eq_nil_or_concat s.data with h | ⟨mid, xx, h⟩
    · exact absurd h hne
    · exact ⟨mid, xx, by simpa [List.concat_eq_append] using h⟩
  have hxmem : x ∈ s.data := by
    rw [hs]
    exact List.mem_append.mpr (Or.inr (List.mem_singleton.mpr rfl))
  have htrim : trimL (("Bearer " ++ s).data) = ("Bearer " ++ s).data := by
    have hform : ("Bearer " ++ s).data =
        'B' :: (('e' :: 'a' :: 'r' :: 'e' :: 'r' :: ' ' :: mid) ++ [x]) := by
      rw [hdata, hs]
      simp
    rw [hform]
    exact trimL_eq_of_ends 'B' x _ (by decide) (hws x hxmem)
  have hnosp : ∀ c ∈ s.data, (c == ' ') = false := by
    intro c hc
    have hcw := hws c hc
    cases hcs : c == ' ' with
    | false => rfl
    | true =>
      rw [show c = ' ' from by simpa using hcs] at hcw
      exact absurd hcw (by decide)
  have hsplit : splitByNE (fun c => c == ' ') s.data = (s.data, []) :=
    splitByNE_all_neg _ s.data hnosp
  have hsne : (s.data = []) = False := by simp [hne]
  unfold extractJwt
  dsimp only
  rw [hdata] at hpfx htrim
  rw [hdata, if_neg (by simp [hpfx]), htrim]
  have hstep : splitByNE (fun c => c == ' ')
      ('B' :: 'e' :: 'a' :: 'r' :: 'e' :: 'r' :: ' ' :: s.data) =
      (['B', 'e', 'a', 'r', 'e', 'r'], [s.data]) := by
    simp [splitByNE, hsplit]
  simp only [splitBy, hstep]
  rw [if_neg hne]

/-! ### Lemmas: channel selection inside `getAuthContext` -/

/-- `getAuthContext` is exactly: probe the channels in order (cookie first
when allowed, then header when allowed), fail `'JWT not found'` without a
credential, and otherwise run the verification tail on the selected
credential. -/
theorem auth_select (cfg : JwtConfig) (now : Nat) (req : ApiRequest)
    (mode : Option Mode) :
    getAuthContext cfg now req mode =
      (match selectCred req mode with
      | some s => authVerifyPhase cfg now s
      | none => Except.error (AuthErr.unauthenticated "JWT not found")) := by
  rcases mode with _ | m
  case none =>
    unfold getAuthContext selectCred
    dsimp only
    cases hc : getCookie COOKIE_AUTH_USER req.cookies with
    | none =>
      cases hj : extractJwt req.authorization with
      | none => simp [hj]
      | some j => simp [hj]
    | some v =>
      cases v with
      | nonStr =>
        cases hj : extractJwt req.authorization with
        | none => simp [hj]
        | some j => simp [hj]
      | str s =>
        by_cases hs : s = ""
        · subst hs
          cases hj : extractJwt req.authorization with
          | none => simp [hj]
          | some j => simp [hj]
        · have hb : (s != "") = true := by simpa using hs
          simp [hb]
  case some =>
    cases m
    case cookie =>
      unfold getAuthContext selectCred
      dsimp only
      cases hc : getCookie COOKIE_AUTH_USER req.cookies with
      | none => simp
      | some v =>
        cases v with
        | nonStr => simp
        | str s =>
          by_cases hs : s = ""
          · subst hs; simp
          · have hb : (s != "") = true := by simpa using hs
            simp [hb]
    case header =>
      unfold getAuthContext selectCred
      dsimp only
      cases hj : extractJwt req.authorization with
      | none => simp [hj]
      | some j => simp [hj]

/-- A non-empty audience list intersects itself. -/
theorem any_contains_self (l : List String) (h : l ≠ []) :
    l.any (fun a => l.contains a) = true := by
  cases l with
  | nil => exact absurd rfl h
  | cons a t => simp [List.any_cons]

/-- Fresh tokens from `makeJwt` pass the verification tail and yield the
issued identity. -/
theorem authVerifyPhase_fresh (cfg : JwtConfig) (tIssue tCheck : Nat)
    (sub name : String) (hAud : cfg.JWT_AUDIENCE ≠ [])
    (hFresh : tCheck < tIssue + cfg.JWT_TTL_ACCESS) :
    authVerifyPhase cfg tCheck (makeJwt cfg tIssue sub name) =
      Except.ok { id := sub, name := name } := by
  unfold authVerifyPhase verifyJwt makeJwt
  rw [decode_encode]
  dsimp only
  rw [if_neg (by simp [makeJwtToken])]
  rw [if_neg (by simp only [makeJwtToken]; omega)]
  have hany : cfg.JWT_AUDIENCE.any (fun a => cfg.JWT_AUDIENCE.contains a) = true :=
    any_contains_self cfg.JWT_AUDIENCE hAud
  rw [if_neg (fun hcon => hcon (by
    show cfg.JWT_AUDIENCE.any (fun a => cfg.JWT_AUDIENCE.contains a) = true
    exact hany))]
  rw [if_neg (by simp [makeJwtToken])]
  rfl

/-- Reading the auth cookie of a request that carries exactly the issued
token selects that token (mode unset). -/
theorem selectCred_cookie_token (t : SignedToken) (auth : Option String) :
    selectCred
      { cookies := [(COOKIE_AUTH_USER, encodeToken t)]
        authorization := auth } none = some (encodeToken t) := by
  unfold selectCred
  dsimp only
  have hraw : getCookieRaw COOKIE_AUTH_USER
      [(COOKIE_AUTH_USER, encodeToken t)] = some (encodeToken t) := rfl
  have hget : getCookie COOKIE_AUTH_USER
      [(COOKIE_AUTH_USER, encodeToken t)] =
      some (CookieValue.str (encodeToken t)) := by
    unfold getCookie
    rw [hraw]
    simp [cookieProcess_token]
  rw [if_pos (Or.inl rfl), hget]
  have hb : (encodeToken t != "") = true := by
    simpa using encodeToken_ne_empty t
  simp [hb]

/-- A bearer header carrying exactly the issued token selects that token
(mode unset, empty cookie jar). -/
theorem selectCred_header_token (t : SignedToken) :
    selectCred
      { cookies := []
        authorization := some ("Bearer " ++ encodeToken t) } none =
      some (encodeToken t) := by
  unfold selectCred
  dsimp only
  have hne : (encodeToken t).data ≠ [] := by
    obtain ⟨c, r, hdata, _⟩ := encodeToken_data_eq t
    rw [hdata]
    exact List.cons_ne_nil _ _
  have hext := extractJwt_bearer (encodeToken t) hne
    (fun c hc => encodeToken_no_ws c hc)
  simp [getCookie, getCookieRaw, hext]

/-! ### Claims C1–C5: the auth resolver -/

/-- A concrete configuration used by the witnesses below. -/
def cfgT : JwtConfig :=
  { JWT_AUDIENCE := ["a"], JWT_HMAC_KEY := "k", JWT_ISSUER := "i",
    JWT_TTL_ACCESS := 3 }

/-- Claim C1: for every subject and name, a token issued by `makeJwt` and
presented in the auth cookie or in the bearer header resolves (while the
token is unexpired, with the configured non-empty audience list) to the
`AuthContext {id := subject, name := name}`. -/
theorem claim_C1 (cfg : JwtConfig) (sub name : String) (tIssue tCheck : Nat)
    (hAud : cfg.JWT_AUDIENCE ≠ [])
    (hFresh : tCheck < tIssue + cfg.JWT_TTL_ACCESS) :
    getAuthContext cfg tCheck
      { cookies := [(COOKIE_AUTH_USER, makeJwt cfg tIssue sub name)]
        authorization := none } none = Except.ok { id := sub, name := name } ∧
    getAuthContext cfg tCheck
      { cookies := []
        authorization := some ("Bearer " ++ makeJwt cfg tIssue sub name) }
      none = Except.ok { id := sub, name := name } := by
  have hphase := authVerifyPhase_fresh cfg tIssue tCheck sub name hAud hFresh
  constructor
  · rw [auth_select, show makeJwt cfg tIssue sub name =
      encodeToken (makeJwtToken cfg tIssue sub name) from rfl,
      selectCred_cookie_token]
    exact hphase
  · rw [auth_select, show makeJwt cfg tIssue sub name =
      encodeToken (makeJwtToken cfg tIssue sub name) from rfl,
      selectCred_header_token]
    exact hphase

/-- Witness instantiating `claim_C1` at a concrete configuration, subject
and name, checked at issuance time. -/
theorem claim_C1_witness :
    getAuthContext cfgT 0
      { cookies := [(COOKIE_AUTH_USER, makeJwt cfgT 0 "u" "A")]
        authorization := none } none = Except.ok { id := "u", name := "A" } ∧
    getAuthContext cfgT 0
      { cookies := []
        authorization := some ("Bearer " ++ makeJwt cfgT 0 "u" "A") } none =
      Except.ok { id := "u", name := "A" } :=
  claim_C1 cfgT "u" "A" 0 0 (by decide) (by decide)

/-- Claim C4: channel precedence in `getAuthContext`: the result is exactly
the ordered probe (cookie first when `mode` is unset or `'cookie'`, header
only when no usable cookie credential and `mode` is unset or `'header'`);
with `mode = 'cookie'` the header is never consulted, with
`mode = 'header'` the cookie jar is never consulted; without a credential
the result is `Unauthenticated`. -/
theorem claim_C4 (cfg : JwtConfig) (now : Nat) (req : ApiRequest)
    (mode : Option Mode) :
    (getAuthContext cfg now req mode =
      (match selectCred req mode with
      | some s => authVerifyPhase cfg now s
      | none => Except.error (AuthErr.unauthenticated "JWT not found"))) ∧
    (∀ a2 : Option String,
      getAuthContext cfg now
        { cookies := req.cookies, authorization := a2 } (some Mode.cookie) =
      getAuthContext cfg now req (some Mode.cookie)) ∧
    (∀ ck2 : Cookies,
      getAuthContext cfg now
        { cookies := ck2, authorization := req.authorization }
        (some Mode.header) =
      getAuthContext cfg now req (some Mode.header)) ∧
    (selectCred req mode = none →
      getAuthContext cfg now req mode =
        Except.error (AuthErr.unauthenticated "JWT not found")) := by
  refine ⟨auth_select cfg now req mode, ?_, ?_, ?_⟩
  · intro a2
    rw [auth_select, auth_select]
    have hsel :
        selectCred { cookies := req.cookies, authorization := a2 }
          (some Mode.cookie) =
        selectCred req (some Mode.cookie) := by
      unfold selectCred
      simp
    rw [hsel]
  · intro ck2
    rw [auth_select, auth_select]
    have hsel :
        selectCred { cookies := ck2, authorization := req.authorization }
          (some Mode.header) =
        selectCred req (some Mode.header) := by
      unfold selectCred
      simp
    rw [hsel]
  · intro h
    rw [auth_select, h]

/-- Witness instantiating `claim_C4` at a concrete credential-free request:
the resolver fails `Unauthenticated`. -/
theorem claim_C4_witness :
    getAuthContext cfgT 0 { cookies := [], authorization := none } none =
      Except.error (AuthErr.unauthenticated "JWT not found") :=
  (claim_C4 cfgT 0 { cookies := [], authorization := none } none).2.2.2 rfl

/-- Claim C2: `getAuthContext` fails `Unauthenticated` when no credential is
selected, when verification fails for any reason other than expiry (a
malformed token, a wrong signing key, and — for unexpired tokens — a
disjoint audience or wrong issuer all report non-expiry failures), and when
the verified payload is a bare string; it fails `Expired` exactly when
verification reports expiry, which is propagated and never converted to
`Unauthenticated`. -/
theorem claim_C2 (cfg : JwtConfig) (now : Nat) (req : ApiRequest)
    (mode : Option Mode) :
    (selectCred req mode = none →
      getAuthContext cfg now req mode =
        Except.error (AuthErr.unauthenticated "JWT not found")) ∧
    (∀ s, selectCred req mode = some s →
      verifyJwt cfg now s = Except.error VerifyErr.invalid →
      getAuthContext cfg now req mode =
        Except.error (AuthErr.unauthenticated "JWT verification failed")) ∧
    (∀ s t str, selectCred req mode = some s →
      verifyJwt cfg now s = Except.ok (some t) →
      t.payload = JwtPayloadV.str str →
      getAuthContext cfg now req mode =
        Except.error (AuthErr.unauthenticated "JWT decoding failed")) ∧
    (getAuthContext cfg now req mode = Except.error AuthErr.tokenExpired ↔
      ∃ s, selectCred req mode = some s ∧
        verifyJwt cfg now s = Except.error VerifyErr.expired) ∧
    (∀ s t, decodeToken s = some t → t.key ≠ cfg.JWT_HMAC_KEY →
      verifyJwt cfg now s = Except.error VerifyErr.invalid) ∧
    (∀ s t, decodeToken s = some t → t.key = cfg.JWT_HMAC_KEY → now < t.exp →
      (t.audience.any (fun a => cfg.JWT_AUDIENCE.contains a) = false ∨
        t.issuer ≠ cfg.JWT_ISSUER) →
      verifyJwt cfg now s = Except.error VerifyErr.invalid) := by
  have hsel := auth_select cfg now req mode
  refine ⟨?_, ?_, ?_, ?_, ?_, ?_⟩
  · intro h
    rw [hsel, h]
  · intro s hs hv
    rw [hsel, hs]
    dsimp only
    unfold authVerifyPhase
    rw [hv]
  · intro s t str hs hv hp
    rw [hsel, hs]
    dsimp only
    unfold authVerifyPhase
    rw [hv]
    dsimp only
    rw [hp]
  · constructor
    · intro h
      rw [hsel] at h
      cases hs : selectCred req mode with
      | none => rw [hs] at h; exact absurd h (by simp)
      | some s =>
        rw [hs] at h
        dsimp only at h
        unfold authVerifyPhase at h
        cases hv : verifyJwt cfg now s with
        | error e =>
          cases e with
          | expired => exact ⟨s, rfl, hv⟩
          | invalid => rw [hv] at h; exact absurd h (by simp)
        | ok o =>
          cases o with
          | none => rw [hv] at h; exact absurd h (by simp)
          | some t =>
            rw [hv] at h
            dsimp only at h
            cases hp : t.payload with
            | str s2 => rw [hp] at h; exact absurd h (by simp)
            | obj sub name => rw [hp] at h; exact absurd h (by simp)
    · rintro ⟨s, hs, hv⟩
      rw [hsel, hs]
      dsimp only
      unfold authVerifyPhase
      rw [hv]
  · intro s t hd hk
    unfold verifyJwt
    rw [hd]
    dsimp only
    rw [if_pos hk]
  · intro s t hd hk hexp haudiss
    unfold verifyJwt
    rw [hd]
    dsimp only
    rw [if_neg (by simp [hk]), if_neg (by omega)]
    by_cases haud : t.audience.any (fun a => cfg.JWT_AUDIENCE.contains a) = true
    · have hiss : t.issuer ≠ cfg.JWT_ISSUER := by
        rcases haudiss with h | h
        · rw [haud] at h; exact absurd h (by simp)
        · exact h
      rw [if_neg (fun hcon => hcon haud), if_pos hiss]
    · rw [if_pos (by simpa using haud)]

/-- A token signed with a wrong key, used by the C2 witness. -/
def tokWrongKey : SignedToken :=
  { payload := JwtPayloadV.obj none none, key := "x", audience := ["a"],
    issuer := "i", exp := 5 }

/-- Witness instantiating `claim_C2`: a credential-free request fails
`Unauthenticated`, and a wrong-key token reports a non-expiry failure. -/
theorem claim_C2_witness :
    getAuthContext cfgT 0 { cookies := [], authorization := none } none =
      Except.error (AuthErr.unauthenticated "JWT not found") ∧
    verifyJwt cfgT 0 (encodeToken tokWrongKey) =
      Except.error VerifyErr.invalid :=
  ⟨(claim_C2 cfgT 0 { cookies := [], authorization := none } none).1 rfl,
   (claim_C2 cfgT 0 { cookies := [], authorization := none } none).2.2.2.2.1
     (encodeToken tokWrongKey) tokWrongKey (decode_encode tokWrongKey)
     (by decide)⟩

/-- Claim C3: `withAuthHandler` dispatches the wrapped handler exactly when
resolution succeeds; `Expired` maps to 403/`ERROR_1003`, `Unauthenticated`
to 401/`ERROR_1002`, any other resolution failure to 500/`ERROR_1001`, and
these three rejections are pairwise distinct. -/
theorem claim_C3 (cfg : JwtConfig) (now : Nat) (mode : Option Mode)
    (req : ApiRequest) :
    (withAuthHandler cfg now mode req = WithAuthResult.runHandler ↔
      ∃ ctx, getAuthContext cfg now req mode = Except.ok ctx) ∧
    (∀ e, getAuthContext cfg now req mode = Except.error e →
      withAuthHandler cfg now mode req = rejectOf e) ∧
    rejectOf AuthErr.tokenExpired = WithAuthResult.reject 403 ERROR_1003 ∧
    (∀ m, rejectOf (AuthErr.unauthenticated m) =
      WithAuthResult.reject 401 ERROR_1002) ∧
    (∀ m, rejectOf (AuthErr.internal m) =
      WithAuthResult.reject 500 ERROR_1001) ∧
    (∀ m, rejectOf AuthErr.tokenExpired ≠ rejectOf (AuthErr.unauthenticated m)) ∧
    (∀ m, rejectOf AuthErr.tokenExpired ≠ rejectOf (AuthErr.internal m)) ∧
    (∀ m m2, rejectOf (AuthErr.unauthenticated m) ≠
      rejectOf (AuthErr.internal m2)) := by
  refine ⟨?_, ?_, rfl, fun m => rfl, fun m => rfl,
    fun m => by simp [rejectOf, ERROR_1002, ERROR_1003],
    fun m => by simp [rejectOf, ERROR_1001, ERROR_1003],
    fun m m2 => by simp [rejectOf, ERROR_1001, ERROR_1002]⟩
  · unfold withAuthHandler
    cases h : getAuthContext cfg now req mode with
    | ok ctx => simp
    | error e =>
      constructor
      · intro hr
        exfalso
        cases e <;> simp [rejectOf] at hr
      · rintro ⟨ctx, hctx⟩
        exact absurd hctx (by simp)
  · intro e h
    unfold withAuthHandler
    rw [h]

/-- Witness instantiating `claim_C3`: a credential-free request is rejected
with the unauthenticated mapping. -/
theorem claim_C3_witness :
    withAuthHandler cfgT 0 none { cookies := [], authorization := none } =
      rejectOf (AuthErr.unauthenticated "JWT not found") :=
  (claim_C3 cfgT 0 none { cookies := [], authorization := none }).2.1
    (AuthErr.unauthenticated "JWT not found") rfl

/-- The frozen claim C5's reading of the header rule: tokenize the whole
header on whitespace characters, drop empty tokens, and return the second
token when one exists. -/
def extractJwtWsTokens (bearer : Option String) : Option String :=
  match bearer with
  | none => none
  | some b =>
    if b.data = [] ∨ ¬ hasBearerPfx b.data then none
    else
      match (splitBy (fun c => c.isWhitespace) b.data).filter
          (fun l => l != []) with
      | _ :: t :: _ => some (String.mk t)
      | _ => none

/-- Claim C5 (amended): `extractJwt` returns `null` when the header is
absent, empty, or lacks the case-insensitive prefix `"bearer "`; otherwise
the trimmed header is split on the space character and the credential is
the second element of the split, or `null` when that element is missing or
empty. -/
theorem claim_C5 (bearer : Option String) :
    extractJwt bearer =
      (match bearer with
      | none => none
      | some b =>
        if b.data = [] ∨ ¬ hasBearerPfx b.data then none
        else
          match (splitBy (fun c => c == ' ') (trimL b.data)).drop 1 with
          | jwt :: _ => if jwt = [] then none else some (String.mk jwt)
          | [] => none) := by
  cases bearer with
  | none => rfl
  | some b =>
    unfold extractJwt
    dsimp only
    by_cases h : b.data = [] ∨ ¬ hasBearerPfx b.data
    · rw [if_pos h, if_pos h]
    · rw [if_neg h, if_neg h]
      cases hsp : splitBy (fun c => c == ' ') (trimL b.data) with
      | nil => rfl
      | cons a rest =>
        cases rest with
        | nil => rfl
        | cons jwt tail => rfl

/-- The frozen claim C5 is false on headers with consecutive spaces: for
`"bearer  x"` whitespace tokenization yields second token `"x"`, but the
code splits on single spaces, finds the empty second element, and returns
`null`. -/
theorem claim_C5_counterexample :
    extractJwt (some "bearer  x") = none ∧
    extractJwtWsTokens (some "bearer  x") = some "x" := by
  constructor
  · decide
  · decide
